import Mathlib

/-!
Verification development for the rust-cloud file-synchronization service.

The development shallowly embeds the core of the backend:
* the content-addressed blob store (`src/backend/src/service/storage.rs`),
* the metadata repository over a flat JSON document (`src/backend/src/db/repository.rs`,
  `src/backend/src/db/models.rs`),
* the reconciliation engine (`src/backend/src/service/sync.rs`),
* the filesystem-event translation (`src/backend/src/watcher/file_watcher.rs`).

Modelling conventions:
* Byte sequences are `List Nat`; hash digest strings are `List Char` (so that
  `str::split_at` can be modelled precisely with `List.take`/`List.drop`).
* The object directory is a partial map from the two-level path produced by
  `hash_to_path` to the stored bytes.
* A Rust panic is modelled as `Option.none` at the outermost layer; typed
  `Result` failures are `Except Err`.
* SHA-256 (external crate `sha2`) is abstracted as a `HashModel`: an arbitrary
  digest function whose output has at least two characters (a real digest has
  64) and never starts with the literal `manifest-` (a real digest is hex, and
  `m` is not a hex digit).  Streaming hashing (`hasher.update` per block,
  then `finalize`) is modelled as the digest of the concatenation of the blocks.
* `serde_json` manifest (de)serialization is modelled by an explicit injective
  codec into `List Nat` built from `Encodable`; only its round-trip law is used.
* `Uuid::new_v4` and `Utc::now` are modelled as explicitly passed values; where
  freshness of a UUID matters it is an explicit hypothesis or is provided by a
  monotone counter in the system-state model.
-/

namespace RustCloud

/-- Error taxonomy of `src/backend/src/error.rs` (payloads of the IO and
Serialization variants are dropped; they wrap external error types). -/
inductive Err
  | notFound (p : String)
  | alreadyExists (p : String)
  | invalidPath (s : String)
  | io
  | serialization
  | config (s : String)
  deriving Repr, DecidableEq

/-! ## Blob store (`service/storage.rs`) -/

/-- The two components of an object location produced by `hash_to_path`:
the first two characters of the hash and the remainder.  The constant
`storage_path/objects` root prefix is common to every access and omitted. -/
abbrev ObjPath := List Char × List Char

/-- The object directory: a partial map from object locations to byte contents. -/
abbrev Fs := ObjPath → Option (List Nat)

def fsEmpty : Fs := fun _ => none

def fsWrite (fs : Fs) (p : ObjPath) (c : List Nat) : Fs :=
  fun q => if q = p then some c else fs q

def fsErase (fs : Fs) (p : ObjPath) : Fs :=
  fun q => if q = p then none else fs q

/-- The namespacing string prepended to a whole-file hash to key its chunk
manifest: `format!("manifest-{}", file_hash)`.  (The characters of
`"manifest-"`.) -/
def manifestTag : List Char := ['m', 'a', 'n', 'i', 'f', 'e', 's', 't', '-']

/-- The persisted chunk-manifest document (`struct ChunkManifest` in
`service/storage.rs`): whole-file hash, total size, ordered chunk hashes. -/
structure ChunkManifest where
  file_hash : List Char
  file_size : Nat
  chunks : List (List Char)
  deriving Repr, DecidableEq

/-- Structural code of a manifest, used to model `serde_json` serialization. -/
def manifestToCode (m : ChunkManifest) : List Nat × Nat × List (List Nat) :=
  (m.file_hash.map Char.toNat, m.file_size, m.chunks.map (fun h => h.map Char.toNat))

def codeToManifest (c : List Nat × Nat × List (List Nat)) : ChunkManifest :=
  ⟨c.1.map Char.ofNat, c.2.1, c.2.2.map (fun h => h.map Char.ofNat)⟩

/-- Model of `serde_json::to_vec` on a `ChunkManifest`: an injective encoding
of the document into bytes.  Only the round-trip law
`decode_manifest (encode_manifest m) = some m` is ever used. -/
def encode_manifest (m : ChunkManifest) : List Nat :=
  [Encodable.encode (manifestToCode m)]

/-- Model of `serde_json::from_slice` on a candidate manifest document. -/
def decode_manifest : List Nat → Option ChunkManifest
  | [n] => (Encodable.decode n : Option (List Nat × Nat × List (List Nat))).map codeToManifest
  | _ => none

/-- Abstraction of the SHA-256 digest (`sha2::Sha256`, an external crate).
`two_le_digest_length` and `digest_ne_manifestTag_append` hold for the real
function: its output is exactly 64 lowercase hex characters, and `m` is not a
hex digit. -/
structure HashModel where
  digest : List Nat → List Char
  two_le_digest_length : ∀ b, 2 ≤ (digest b).length
  digest_ne_manifestTag_append : ∀ b s, digest b ≠ manifestTag ++ s

/-- Display form of an object path, used for `Error::NotFound` payloads. -/
def pathString (p : ObjPath) : String :=
  String.mk p.1 ++ "/" ++ String.mk p.2

namespace StorageService

/-- Embedding of `StorageService::hash_to_path`.  `hash.split_at(2)` panics (modelled as
`none`) when the hash has fewer than two characters; otherwise the object is
placed under the first two characters, then the remainder. -/
def hash_to_path (h : List Char) : Option ObjPath :=
  if 2 ≤ h.length then some (h.take 2, h.drop 2) else none

/-- Splitting a byte stream into successive blocks of `k` bytes, as done by the
`file.read(&mut buffer)` loops (`compute_hash`, `store_chunked`).  Structured
with an explicit fuel argument equal to the input length so that it is
structurally recursive.  With `k = 0` the read loop terminates at once with no
blocks, matching a zero-length read buffer. -/
def chunks_of_go (k : Nat) : Nat → List Nat → List (List Nat)
  | _, [] => []
  | 0, _ :: _ => []
  | fuel + 1, x :: xs =>
    if k = 0 then [] else (x :: xs).take k :: chunks_of_go k fuel ((x :: xs).drop k)

def chunks_of (k : Nat) (l : List Nat) : List (List Nat) :=
  chunks_of_go k l.length l

/-- Embedding of `StorageService::compute_hash`: stream the content in blocks of the
configured chunk size through the hasher.  Feeding successive blocks to a
streaming hasher digests their concatenation. -/
def compute_hash (M : HashModel) (k : Nat) (content : List Nat) : List Char :=
  M.digest (chunks_of k content).flatten

/-- Embedding of `StorageService::store_content`: hash the bytes, and write them at the
derived location only if nothing is there yet; always return the hash/size
pair.  `content.len()` is the returned size. -/
def store_content (M : HashModel) (fs : Fs) (content : List Nat) :
    Option (List Char × Nat × Fs) :=
  match hash_to_path (M.digest content) with
  | none => none
  | some target =>
    match fs target with
    | some _ => some (M.digest content, content.length, fs)
    | none => some (M.digest content, content.length, fsWrite fs target content)

/-- Embedding of `StorageService::store_file`: hash by streaming in chunk-size blocks, then
copy the source bytes to the derived location only if absent; the returned size
is the source file's length. -/
def store_file (M : HashModel) (k : Nat) (fs : Fs) (content : List Nat) :
    Option (List Char × Nat × Fs) :=
  match hash_to_path (compute_hash M k content) with
  | none => none
  | some target =>
    match fs target with
    | some _ => some (compute_hash M k content, content.length, fs)
    | none => some (compute_hash M k content, content.length, fsWrite fs target content)

/-- Embedding of `StorageService::retrieve_file`: `NotFound` if nothing is stored at the
derived location, otherwise the stored bytes. -/
def retrieve_file (fs : Fs) (h : List Char) : Option (Except Err (List Nat)) :=
  match hash_to_path h with
  | none => none
  | some p =>
    match fs p with
    | none => some (.error (.notFound (pathString p)))
    | some c => some (.ok c)

/-- Embedding of `StorageService::file_exists`. -/
def file_exists (fs : Fs) (h : List Char) : Option Bool :=
  match hash_to_path h with
  | none => none
  | some p => some (fs p).isSome

/-- Embedding of `StorageService::delete_file`: remove the object if present; `Ok` either
way.  The resulting directory is returned. -/
def delete_file (fs : Fs) (h : List Char) : Option Fs :=
  match hash_to_path h with
  | none => none
  | some p => some (fsErase fs p)

/-- The per-block body of the `store_chunked` read loop: feed each block to the
running whole-file hasher and store it independently via `store_content`,
collecting the chunk hashes in order. -/
def store_chunks_loop (M : HashModel) (fs : Fs) :
    List (List Nat) → Option (List (List Char) × Fs)
  | [] => some ([], fs)
  | c :: cs =>
    match store_content M fs c with
    | none => none
    | some (h, _, fs') =>
      match store_chunks_loop M fs' cs with
      | none => none
      | some (hs, fs'') => some (h :: hs, fs'')

/-- Embedding of `StorageService::store_chunked`.  At or below the chunk threshold it
delegates to `store_file` and returns a single-element chunk list.  Above it,
every block is stored via `store_content`, the whole-file hash is the streaming
digest of the same blocks, and a `ChunkManifest` is serialized and written
unconditionally at the location derived from `manifest-{file_hash}`. -/
def store_chunked (M : HashModel) (k : Nat) (fs : Fs) (content : List Nat) :
    Option (List Char × Nat × List (List Char) × Fs) :=
  if content.length ≤ k then
    match store_file M k fs content with
    | none => none
    | some (h, size, fs') => some (h, size, [h], fs')
  else
    match store_chunks_loop M fs (chunks_of k content) with
    | none => none
    | some (chunkHashes, fs1) =>
      let fileHash := M.digest (chunks_of k content).flatten
      match hash_to_path (manifestTag ++ fileHash) with
      | none => none
      | some mp =>
        let fs2 := fsWrite fs1 mp
          (encode_manifest ⟨fileHash, content.length, chunkHashes⟩)
        some (fileHash, content.length, chunkHashes, fs2)

/-- The reconstruction loop of `retrieve_chunked`: retrieve every chunk hash in
manifest order and concatenate the payloads, propagating the first failure. -/
def retrieve_chunks_loop (fs : Fs) :
    List (List Char) → Option (Except Err (List Nat))
  | [] => some (.ok [])
  | h :: hs =>
    match retrieve_file fs h with
    | none => none
    | some (.error e) => some (.error e)
    | some (.ok c) =>
      match retrieve_chunks_loop fs hs with
      | none => none
      | some (.error e) => some (.error e)
      | some (.ok rest) => some (.ok (c ++ rest))

/-- Embedding of `StorageService::retrieve_chunked`: if a manifest document exists at the
derived `manifest-{hash}` location, parse it and reconstruct by concatenating
each chunk's bytes in manifest order; otherwise fall back to `retrieve_file`. -/
def retrieve_chunked (fs : Fs) (h : List Char) :
    Option (Except Err (List Nat)) :=
  match hash_to_path (manifestTag ++ h) with
  | none => none
  | some mp =>
    match fs mp with
    | some raw =>
      match decode_manifest raw with
      | none => some (.error .serialization)
      | some m => retrieve_chunks_loop fs m.chunks
    | none => retrieve_file fs h

end StorageService

/-! ## Filesystem-event translation (`watcher/file_watcher.rs`) -/

/-- Sub-kinds of `notify::EventKind::Create` (external crate `notify`). -/
inductive CreateKind
  | any | file | folder | other
  deriving Repr, DecidableEq

/-- Sub-kinds of `notify::EventKind::Modify`.  `name` carries a rename
notification, produced when the platform reports a rename. -/
inductive ModifyKind
  | any | data | metadata | name | other
  deriving Repr, DecidableEq

/-- Sub-kinds of `notify::EventKind::Remove`. -/
inductive RemoveKind
  | any | file | folder | other
  deriving Repr, DecidableEq

/-- Sub-kinds of `notify::EventKind::Access`. -/
inductive AccessKind
  | any | read | other
  deriving Repr, DecidableEq

/-- Embedding of `notify::EventKind`. -/
inductive EventKind
  | any
  | access (k : AccessKind)
  | create (k : CreateKind)
  | modify (k : ModifyKind)
  | remove (k : RemoveKind)
  | other
  deriving Repr, DecidableEq

/-- A raw `notify::Event`: its kind and its paths (a rename that preserves the
earlier path carries both the old and the new path, in that order). -/
structure NotifyEvent where
  kind : EventKind
  paths : List String
  deriving Repr, DecidableEq

/-- The normalized event vocabulary `FileEvent` of `watcher/file_watcher.rs`. -/
inductive FileEvent
  | created (p : String)
  | modified (p : String)
  | deleted (p : String)
  | renamed (src dst : String)
  deriving Repr, DecidableEq

namespace FileWatcher

/-- Embedding of `FileWatcher::convert_event`: take the event's first path (dropping the
event when there is none), then map `Create`/`Modify`/`Remove` to
`Created`/`Modified`/`Deleted` and drop `Any`/`Access`/`Other`. -/
def convert_event (e : NotifyEvent) : Option FileEvent :=
  match e.paths.head? with
  | none => none
  | some path =>
    match e.kind with
    | .create _ => some (.created path)
    | .modify _ => some (.modified path)
    | .remove _ => some (.deleted path)
    | .any => none
    | .access _ => none
    | .other => none

end FileWatcher

/-! ## Metadata store (`db/models.rs`, `db/repository.rs`) -/

/-- Embedding of `SyncStatus` (`db/models.rs`). -/
inductive SyncStatus
  | pending | syncing | completed | failed
  deriving Repr, DecidableEq

/-- Embedding of `FileRecord` (`db/models.rs`).  `Uuid` is modelled as `Nat`,
`DateTime<Utc>` as `Nat`, `i32` version as `Int`. -/
structure FileRecord where
  id : Nat
  path : String
  hash : Option String
  size : Nat
  version : Int
  created_at : Nat
  updated_at : Nat
  deriving Repr, DecidableEq

structure NewFileRecord where
  path : String
  hash : Option String
  size : Nat
  deriving Repr, DecidableEq

/-- Embedding of `SyncRecord` (`db/models.rs`). -/
structure SyncRecord where
  id : Nat
  device_id : Nat
  file_id : Nat
  sync_status : SyncStatus
  last_sync_at : Nat
  deriving Repr, DecidableEq

structure NewSyncRecord where
  device_id : Nat
  file_id : Nat
  sync_status : SyncStatus
  deriving Repr, DecidableEq

/-- Embedding of `DeviceRecord` (`db/models.rs`). -/
structure DeviceRecord where
  id : Nat
  name : String
  last_seen : Nat
  deriving Repr, DecidableEq

structure NewDeviceRecord where
  name : String
  deriving Repr, DecidableEq

/-- The flat persisted document (`struct Database`), with `Default` being three
empty tables. -/
structure Database where
  files : List FileRecord
  syncs : List SyncRecord
  devices : List DeviceRecord
  deriving Repr, DecidableEq

def Database.default : Database := ⟨[], [], []⟩

namespace Repository

/-- Replace the record found by `iter_mut().find(|s| s.id == i)` with its
image under `g`, leaving everything else unchanged. -/
def updateFirstSync (l : List SyncRecord) (i : Nat) (g : SyncRecord → SyncRecord) :
    List SyncRecord :=
  match l with
  | [] => []
  | s :: rest => if s.id = i then g s :: rest else s :: updateFirstSync rest i g

/-- Same, for the device table. -/
def updateFirstDevice (l : List DeviceRecord) (i : Nat) (g : DeviceRecord → DeviceRecord) :
    List DeviceRecord :=
  match l with
  | [] => []
  | d :: rest => if d.id = i then g d :: rest else d :: updateFirstDevice rest i g

/-- Same, for the file table. -/
def updateFirstFile (l : List FileRecord) (i : Nat) (g : FileRecord → FileRecord) :
    List FileRecord :=
  match l with
  | [] => []
  | f :: rest => if f.id = i then g f :: rest else f :: updateFirstFile rest i g

/-- Embedding of `Repository::new` (`db/repository.rs` lines 37-49): when the document
exists its text is parsed with `serde_json::from_str(..).unwrap_or_default()`,
so a parse failure silently yields the empty store; a missing document also
yields the empty store.  `parse` stands for the external `serde_json` parser,
`onDisk` for the optional document text; construction always succeeds. -/
def new (parse : String → Option Database) (onDisk : Option String) :
    Except Err Database :=
  match onDisk with
  | some content => .ok ((parse content).getD Database.default)
  | none => .ok Database.default

/-- Embedding of `Repository::create_file`: reject a duplicate path, otherwise push a fresh
record with version 1. -/
def create_file (db : Database) (fresh now : Nat) (nf : NewFileRecord) :
    Except Err (Database × FileRecord) :=
  if db.files.any (fun f => f.path = nf.path) then
    .error (.alreadyExists nf.path)
  else
    let record : FileRecord := ⟨fresh, nf.path, nf.hash, nf.size, 1, now, now⟩
    .ok ({ db with files := db.files ++ [record] }, record)

/-- Embedding of `Repository::get_file_by_path`: first record with the given path. -/
def get_file_by_path (db : Database) (path : String) : Except Err FileRecord :=
  match db.files.find? (fun f => f.path = path) with
  | some f => .ok f
  | none => .error (.notFound path)

/-- Embedding of `Repository::update_file`: set hash and size on the record with the given
id, increment its version and advance `updated_at`. -/
def update_file (db : Database) (now : Nat) (id : Nat) (hash : Option String)
    (size : Nat) : Except Err (Database × FileRecord) :=
  match db.files.find? (fun f => f.id = id) with
  | none => .error (.notFound ("file:" ++ toString id))
  | some f =>
    let f' : FileRecord :=
      { f with hash := hash, size := size, version := f.version + 1, updated_at := now }
    .ok ({ db with files := updateFirstFile db.files id (fun g =>
      { g with hash := hash, size := size, version := g.version + 1, updated_at := now }) },
      f')

/-- Embedding of `Repository::delete_file`: remove the record with the given id and retain
only sync records of other files (cascade delete). -/
def delete_file (db : Database) (id : Nat) : Except Err Database :=
  if db.files.any (fun f => f.id = id) then
    .ok { db with
      files := db.files.eraseP (fun f => f.id = id),
      syncs := db.syncs.filter (fun s => s.file_id ≠ id) }
  else
    .error (.notFound ("file:" ++ toString id))

/-- Embedding of `Repository::create_sync`: reject an unknown `file_id`, otherwise push a
fresh record. -/
def create_sync (db : Database) (fresh now : Nat) (ns : NewSyncRecord) :
    Except Err (Database × SyncRecord) :=
  if db.files.any (fun f => f.id = ns.file_id) then
    let record : SyncRecord := ⟨fresh, ns.device_id, ns.file_id, ns.sync_status, now⟩
    .ok ({ db with syncs := db.syncs ++ [record] }, record)
  else
    .error (.notFound ("file:" ++ toString ns.file_id))

/-- Embedding of `Repository::update_sync_status`: set the status of the record with the
given id unconditionally and advance `last_sync_at`. -/
def update_sync_status (db : Database) (now : Nat) (id : Nat) (status : SyncStatus) :
    Except Err (Database × SyncRecord) :=
  match db.syncs.find? (fun s => s.id = id) with
  | none => .error (.notFound ("sync:" ++ toString id))
  | some s =>
    let s' : SyncRecord := { s with sync_status := status, last_sync_at := now }
    .ok ({ db with syncs := updateFirstSync db.syncs id (fun t =>
      { t with sync_status := status, last_sync_at := now }) }, s')

/-- Embedding of `Repository::list_syncs_by_file`. -/
def list_syncs_by_file (db : Database) (file_id : Nat) : List SyncRecord :=
  db.syncs.filter (fun s => s.file_id = file_id)

/-- Embedding of `Repository::create_device`. -/
def create_device (db : Database) (fresh now : Nat) (nd : NewDeviceRecord) :
    Except Err (Database × DeviceRecord) :=
  let record : DeviceRecord := ⟨fresh, nd.name, now⟩
  .ok ({ db with devices := db.devices ++ [record] }, record)

/-- Embedding of `Repository::update_device_last_seen`. -/
def update_device_last_seen (db : Database) (now : Nat) (id : Nat) :
    Except Err (Database × DeviceRecord) :=
  match db.devices.find? (fun d => d.id = id) with
  | none => .error (.notFound ("device:" ++ toString id))
  | some d =>
    let d' : DeviceRecord := { d with last_seen := now }
    .ok ({ db with devices := updateFirstDevice db.devices id (fun e =>
      { e with last_seen := now }) }, d')

end Repository

/-! ## Reconciliation engine (`service/sync.rs`) -/

/-- Embedding of `SyncAction` (`service/sync.rs`). -/
inductive SyncAction
  | upload | download | delete | skip
  deriving Repr, DecidableEq

/-- A `SyncPlan` item. -/
structure SyncPlan where
  file_id : Nat
  path : String
  action : SyncAction
  deriving Repr, DecidableEq

namespace SyncEngine

/-- Embedding of `SyncEngine::create_sync_plan`.  `remote` is the repository's file table
(the result of `list_files`), `locals` the local snapshot.  Each loop
iteration pushes at most one plan item; the `HashSet` membership test is
`remote.any`, and the repeated repository lookup inside the loop is
`get_file_by_path` on the same table. -/
def create_sync_plan (remote : List FileRecord) (locals : List FileRecord) :
    List SyncPlan :=
  (locals.map (fun lf =>
    if ¬ remote.any (fun f => f.path = lf.path) then
      [⟨lf.id, lf.path, .upload⟩]
    else
      match remote.find? (fun f => f.path = lf.path) with
      | some r =>
        if r.hash ≠ lf.hash then
          [⟨lf.id, lf.path,
            if r.version > lf.version then .download else .upload⟩]
        else
          [⟨lf.id, lf.path, .skip⟩]
      | none => [])).flatten

/-- Embedding of `SyncEngine::sync_file`.  Creates a `SyncRecord` with status `Syncing`,
executes the action (`Upload`/`Download`/`Skip` are transport no-ops,
`Delete` calls `Repository::delete_file`), then updates the created record to
`Completed` or `Failed`, discarding the update's own error (`let _ = ...`);
the `sync_record?` propagation happens after the action has already run.
Returns the resulting database and `sync_file`'s result. -/
def sync_file (db : Database) (fresh now : Nat) (file_id device_id : Nat)
    (action : SyncAction) : Database × Except Err Unit :=
  let syncRecordRes := Repository.create_sync db fresh now ⟨device_id, file_id, .syncing⟩
  let db1 := match syncRecordRes with
    | .ok (d, _) => d
    | .error _ => db
  let afterAction : Database × Except Err Unit :=
    match action with
    | .upload => (db1, .ok ())
    | .download => (db1, .ok ())
    | .skip => (db1, .ok ())
    | .delete =>
      match Repository.delete_file db1 file_id with
      | .ok d => (d, .ok ())
      | .error e => (db1, .error e)
  match afterAction.2 with
  | .ok _ =>
    match syncRecordRes with
    | .ok (_, record) =>
      let db3 := match Repository.update_sync_status afterAction.1 now record.id .completed with
        | .ok (d, _) => d
        | .error _ => afterAction.1
      (db3, .ok ())
    | .error e => (afterAction.1, .error e)
  | .error e =>
    match syncRecordRes with
    | .ok (_, record) =>
      let db3 := match Repository.update_sync_status afterAction.1 now record.id .failed with
        | .ok (d, _) => d
        | .error _ => afterAction.1
      (db3, .error e)
    | .error e2 => (afterAction.1, .error e2)

end SyncEngine

/-! ## Reachable repository histories

The only writers of the sync table in the whole program are
`SyncEngine::sync_file` (which creates a fresh `Syncing` record and updates
only that record) and `Repository::delete_file`'s cascade; `update_sync_status`
has no other caller.  `Sys` pairs the database with a monotone counter
supplying fresh ids, modelling global freshness of `Uuid::new_v4`. -/

structure Sys where
  db : Database
  next : Nat
  deriving Repr, DecidableEq

/-- One observable repository operation, as invoked by the HTTP layer, the
watcher service, or the sync engine.  Fresh ids are drawn from the counter. -/
inductive Step : Sys → Sys → Prop
  | create_file (s : Sys) (now : Nat) (nf : NewFileRecord) :
      Step s ⟨(match Repository.create_file s.db s.next now nf with
               | .ok (d, _) => d
               | .error _ => s.db), s.next + 1⟩
  | update_file (s : Sys) (now id : Nat) (hash : Option String) (size : Nat) :
      Step s ⟨(match Repository.update_file s.db now id hash size with
               | .ok (d, _) => d
               | .error _ => s.db), s.next⟩
  | delete_file (s : Sys) (id : Nat) :
      Step s ⟨(match Repository.delete_file s.db id with
               | .ok d => d
               | .error _ => s.db), s.next⟩
  | sync_file (s : Sys) (now file_id device_id : Nat) (a : SyncAction) :
      Step s ⟨(SyncEngine.sync_file s.db s.next now file_id device_id a).1, s.next + 1⟩
  | create_device (s : Sys) (now : Nat) (nd : NewDeviceRecord) :
      Step s ⟨(match Repository.create_device s.db s.next now nd with
               | .ok (d, _) => d
               | .error _ => s.db), s.next + 1⟩
  | heartbeat (s : Sys) (now id : Nat) :
      Step s ⟨(match Repository.update_device_last_seen s.db now id with
               | .ok (d, _) => d
               | .error _ => s.db), s.next⟩

/-- Well-formedness of a system state: every sync-record id was drawn from the
counter, and ids are pairwise distinct. -/
def Inv (s : Sys) : Prop :=
  (∀ r ∈ s.db.syncs, r.id < s.next) ∧ (s.db.syncs.map (fun r => r.id)).Nodup

/-! ## Auxiliary definitions used by the theorems -/

/-- The location `hash_to_path` derives for the digest of `b` (total, because a
digest has at least two characters). -/
def objLoc (M : HashModel) (b : List Nat) : ObjPath :=
  ((M.digest b).take 2, (M.digest b).drop 2)

/-- The location `hash_to_path` derives for the manifest of whole-file hash
`h`. -/
def manifestLoc (h : List Char) : ObjPath :=
  ((manifestTag ++ h).take 2, (manifestTag ++ h).drop 2)

/-- The per-entry decision of `create_sync_plan`, written from the spec:
no remote counterpart means `Upload`; equal hashes mean `Skip`; differing
hashes mean `Download` exactly when the remote version is strictly greater,
else `Upload`. -/
def spec_action (remote : List FileRecord) (lf : FileRecord) : SyncAction :=
  match remote.find? (fun f => f.path = lf.path) with
  | none => .upload
  | some r =>
    if r.hash = lf.hash then .skip
    else if lf.version < r.version then .download else .upload

/-- A concrete digest function: two marker characters followed by one character
per byte.  It is not injective (as SHA-256 is not), but is collision-free on
the small inputs used by the witnesses. -/
def sampleDigest (b : List Nat) : List Char :=
  'h' :: 'h' :: b.map (fun n => Char.ofNat (100 + n % 10))

/-- A concrete `HashModel` used by the witnesses. -/
def sampleModel : HashModel where
  digest := sampleDigest
  two_le_digest_length := by
    intro b
    simp [sampleDigest]
  digest_ne_manifestTag_append := by
    intro b s h
    simp only [sampleDigest, manifestTag, List.cons_append, List.cons.injEq] at h
    exact absurd h.1 (by decide)

/-- A database with a single file record, used by the `sync_file` witnesses. -/
def c4db : Database := ⟨[⟨1, "a.txt", none, 0, 1, 0, 0⟩], [], []⟩

/-- A system state holding one file and one already-`Completed` sync record,
used by the terminal-status witness. -/
def c8s0 : Sys := ⟨⟨[⟨0, "a", none, 0, 1, 0, 0⟩], [⟨1, 2, 0, .completed, 0⟩], []⟩, 5⟩

/-- A raw rename notification whose platform preserved the earlier path: a
`Modify(Name)` event carrying both the old and the new path. -/
def renameNotification : NotifyEvent := ⟨.modify .name, ["old.txt", "new.txt"]⟩

/-! ## Basic lemmas -/

/-- The manifest codec round-trips: `serde_json` deserialization of a document
it serialized recovers the document. -/
theorem decode_encode_manifest (m : ChunkManifest) :
    decode_manifest (encode_manifest m) = some m := by
  simp only [encode_manifest, decode_manifest, Encodable.encodek, Option.map_some]
  simp [codeToManifest, manifestToCode, List.map_map, Function.comp_def]

namespace StorageService

theorem hash_to_path_digest (M : HashModel) (b : List Nat) :
    hash_to_path (M.digest b) = some (objLoc M b) := by
  simp [hash_to_path, objLoc, M.two_le_digest_length b]

theorem hash_to_path_manifestTag (h : List Char) :
    hash_to_path (manifestTag ++ h) = some (manifestLoc h) := by
  simp [hash_to_path, manifestLoc, manifestTag]

theorem objLoc_digest_eq (M : HashModel) {x y : List Nat}
    (h : objLoc M x = objLoc M y) : M.digest x = M.digest y := by
  have h1 := congrArg Prod.fst h
  have h2 := congrArg Prod.snd h
  simp only [objLoc] at h1 h2
  calc M.digest x = (M.digest x).take 2 ++ (M.digest x).drop 2 :=
        (List.take_append_drop 2 (M.digest x)).symm
    _ = (M.digest y).take 2 ++ (M.digest y).drop 2 := by rw [h1, h2]
    _ = M.digest y := List.take_append_drop 2 (M.digest y)

theorem objLoc_ne_manifestLoc (M : HashModel) (b : List Nat) (h : List Char) :
    objLoc M b ≠ manifestLoc h := by
  intro he
  have h1 := congrArg Prod.fst he
  have h2 := congrArg Prod.snd he
  simp only [objLoc, manifestLoc] at h1 h2
  have : M.digest b = manifestTag ++ h := by
    calc M.digest b = (M.digest b).take 2 ++ (M.digest b).drop 2 :=
          (List.take_append_drop 2 (M.digest b)).symm
      _ = (manifestTag ++ h).take 2 ++ (manifestTag ++ h).drop 2 := by rw [h1, h2]
      _ = manifestTag ++ h := List.take_append_drop 2 (manifestTag ++ h)
  exact M.digest_ne_manifestTag_append b h this

theorem chunks_of_go_flatten (k : Nat) (hk : 0 < k) :
    ∀ (fuel : Nat) (l : List Nat), l.length ≤ fuel →
      (chunks_of_go k fuel l).flatten = l := by
  intro fuel
  induction fuel with
  | zero =>
    intro l hl
    cases l with
    | nil => simp [chunks_of_go]
    | cons x xs => simp at hl
  | succ fuel ih =>
    intro l hl
    cases l with
    | nil => simp [chunks_of_go]
    | cons x xs =>
      have hk0 : k ≠ 0 := Nat.pos_iff_ne_zero.mp hk
      simp only [chunks_of_go, hk0, if_false, List.flatten_cons]
      rw [ih ((x :: xs).drop k) ?_, List.take_append_drop]
      have : (x :: xs).length ≤ fuel + 1 := hl
      simp only [List.length_drop]
      omega

theorem chunks_of_flatten (k : Nat) (hk : 0 < k) (l : List Nat) :
    (chunks_of k l).flatten = l :=
  chunks_of_go_flatten k hk l.length l le_rfl

/-- Full characterisation of one `store_content` call: it returns the digest
and the length, occupies the object's location, touches no other location, and
never erases anything. -/
theorem store_content_spec (M : HashModel) (fs : Fs) (c : List Nat) :
    ∃ fs', store_content M fs c = some (M.digest c, c.length, fs') ∧
      (fs' (objLoc M c)).isSome ∧
      (∀ p, p ≠ objLoc M c → fs' p = fs p) ∧
      (∀ p v, fs p = some v → fs' p = some v) ∧
      (∀ p v, fs' p = some v → fs p = some v ∨ (p = objLoc M c ∧ v = c)) := by
  unfold store_content
  rw [hash_to_path_digest]
  cases hfs : fs (objLoc M c) with
  | some v =>
    refine ⟨fs, by simp [hfs], by simp [hfs], fun p _ => rfl, fun p v h => h,
      fun p v h => Or.inl h⟩
  | none =>
    refine ⟨fsWrite fs (objLoc M c) c, by simp [hfs], ?_, ?_, ?_, ?_⟩
    · simp [fsWrite]
    · intro p hp
      simp [fsWrite, hp]
    · intro p v h
      by_cases hp : p = objLoc M c
      · rw [hp] at h
        rw [hfs] at h
        exact absurd h (by simp)
      · simp [fsWrite, hp, h]
    · intro p v h
      by_cases hp : p = objLoc M c
      · subst hp
        simp [fsWrite] at h
        exact Or.inr ⟨rfl, h.symm⟩
      · simp [fsWrite, hp] at h
        exact Or.inl h

/-- If whatever already sits at the object's location can only be the content
itself, then after `store_content` the location holds exactly the content. -/
theorem store_content_stores (M : HashModel) (fs : Fs) (c : List Nat)
    (hcl : ∀ v, fs (objLoc M c) = some v → v = c) :
    ∃ fs', store_content M fs c = some (M.digest c, c.length, fs') ∧
      fs' (objLoc M c) = some c ∧
      (∀ p, p ≠ objLoc M c → fs' p = fs p) ∧
      (∀ p v, fs p = some v → fs' p = some v) ∧
      (∀ p v, fs' p = some v → fs p = some v ∨ (p = objLoc M c ∧ v = c)) := by
  obtain ⟨fs', h1, h2, h3, h4, h5⟩ := store_content_spec M fs c
  refine ⟨fs', h1, ?_, h3, h4, h5⟩
  obtain ⟨v, hv⟩ := Option.isSome_iff_exists.mp h2
  rcases h5 _ _ hv with hold | ⟨_, hvc⟩
  · rw [hcl v hold] at hv
    exact hv
  · rw [hvc] at hv
    exact hv

/-- The chunk-storing loop stores every chunk at its own location, returns the
chunk digests in order, and touches no location other than the chunks'. -/
theorem store_chunks_loop_spec (M : HashModel) :
    ∀ (cs : List (List Nat)) (fs : Fs),
      (∀ c ∈ cs, ∀ v, fs (objLoc M c) = some v → v = c) →
      (∀ c ∈ cs, ∀ c' ∈ cs, M.digest c = M.digest c' → c = c') →
      ∃ fs', store_chunks_loop M fs cs = some (cs.map M.digest, fs') ∧
        (∀ c ∈ cs, fs' (objLoc M c) = some c) ∧
        (∀ p, (∀ c ∈ cs, p ≠ objLoc M c) → fs' p = fs p) := by
  intro cs
  induction cs with
  | nil =>
    intro fs _ _
    exact ⟨fs, rfl, by simp, fun p _ => rfl⟩
  | cons c cs ih =>
    intro fs hclean hpair
    obtain ⟨fs1, h1, hstored, huntouched, hmono, hnew⟩ :=
      store_content_stores M fs c (hclean c (by simp))
    have hclean1 : ∀ c' ∈ cs, ∀ v, fs1 (objLoc M c') = some v → v = c' := by
      intro c' hc' v hv
      rcases hnew _ _ hv with hold | ⟨hploc, hvc⟩
      · exact hclean c' (by simp [hc']) v hold
      · have hdig : M.digest c' = M.digest c := objLoc_digest_eq M hploc
        have : c' = c := hpair c' (by simp [hc']) c (by simp) hdig
        rw [hvc, this]
    have hpair1 : ∀ a ∈ cs, ∀ b ∈ cs, M.digest a = M.digest b → a = b := by
      intro a ha b hb
      exact hpair a (by simp [ha]) b (by simp [hb])
    obtain ⟨fs2, h2, hstored2, huntouched2⟩ := ih fs1 hclean1 hpair1
    refine ⟨fs2, ?_, ?_, ?_⟩
    · simp only [store_chunks_loop, h1, h2, List.map_cons]
    · intro c' hc'
      rcases List.mem_cons.mp hc' with rfl | hmem
      · by_cases hex : ∃ c'' ∈ cs, objLoc M c' = objLoc M c''
        · obtain ⟨c'', hc'', heq⟩ := hex
          have : c' = c'' :=
            hpair c' (by simp) c'' (by simp [hc'']) (objLoc_digest_eq M heq)
          rw [heq, hstored2 c'' hc'', this]
        · push_neg at hex
          rw [huntouched2 _ hex]
          exact hstored
      · exact hstored2 c' hmem
    · intro p hp
      rw [huntouched2 p (fun c' hc' => hp c' (by simp [hc']))]
      exact huntouched p (hp c (by simp))

/-- Retrieving a hash whose location holds `c` yields `c`. -/
theorem retrieve_file_objLoc (M : HashModel) (fs : Fs) (c : List Nat)
    (h : fs (objLoc M c) = some c) :
    retrieve_file fs (M.digest c) = some (.ok c) := by
  simp [retrieve_file, hash_to_path_digest, h]

/-- The reconstruction loop over a list of stored chunks returns their
concatenation. -/
theorem retrieve_chunks_loop_spec (M : HashModel) (fs : Fs) :
    ∀ cs : List (List Nat),
      (∀ c ∈ cs, retrieve_file fs (M.digest c) = some (.ok c)) →
      retrieve_chunks_loop fs (cs.map M.digest) = some (.ok cs.flatten) := by
  intro cs
  induction cs with
  | nil => intro _; simp [retrieve_chunks_loop]
  | cons c cs ih =>
    intro h
    have hc := h c (by simp)
    have hrest := ih (fun c' hc' => h c' (by simp [hc']))
    simp only [List.map_cons, retrieve_chunks_loop, hc, hrest, List.flatten_cons]

end StorageService

/-- The planner loop, entry by entry: each local entry contributes exactly the
singleton item decided by `spec_action`. -/
theorem create_sync_plan_eq_map (remote locals : List FileRecord) :
    SyncEngine.create_sync_plan remote locals =
      locals.map (fun lf => ⟨lf.id, lf.path, spec_action remote lf⟩) := by
  unfold SyncEngine.create_sync_plan
  induction locals with
  | nil => simp
  | cons lf locals ih =>
    simp only [List.map_cons, List.flatten_cons, ih]
    by_cases hany : remote.any (fun f => f.path = lf.path)
    · simp only [hany, not_true, if_false]
      cases hfind : remote.find? (fun f => f.path = lf.path) with
      | none =>
        obtain ⟨x, hx, hp⟩ := List.any_eq_true.mp hany
        have : (remote.find? (fun f => f.path = lf.path)).isSome :=
          List.find?_isSome.mpr ⟨x, hx, hp⟩
        rw [hfind] at this
        simp at this
      | some r =>
        by_cases hh : r.hash = lf.hash
        · simp [spec_action, hfind, hh]
        · simp [spec_action, hfind, hh, gt_iff_lt]
    · have hfind : remote.find? (fun f => f.path = lf.path) = none := by
        refine List.find?_eq_none.mpr ?_
        intro x hx hpx
        exact hany (List.any_eq_true.mpr ⟨x, hx, hpx⟩)
      simp [hany, spec_action, hfind]

namespace Repository

theorem find?_id_none (l : List SyncRecord) (i : Nat)
    (h : ∀ s ∈ l, s.id ≠ i) : l.find? (fun s => s.id = i) = none :=
  List.find?_eq_none.mpr (fun a ha => by simp [h a ha])

theorem find?_id_append (l : List SyncRecord) (r : SyncRecord) (i : Nat)
    (h : ∀ s ∈ l, s.id ≠ i) (hr : r.id = i) :
    (l ++ [r]).find? (fun s => s.id = i) = some r := by
  induction l with
  | nil => simp [List.find?, hr]
  | cons s l ih =>
    have hs : s.id ≠ i := h s (by simp)
    have hd : (decide (s.id = i)) = false := by simp [hs]
    rw [List.cons_append]
    simp only [List.find?, hd]
    exact ih (fun t ht => h t (by simp [ht]))

theorem updateFirstSync_append (l : List SyncRecord) (r : SyncRecord) (i : Nat)
    (g : SyncRecord → SyncRecord) (h : ∀ s ∈ l, s.id ≠ i) (hr : r.id = i) :
    updateFirstSync (l ++ [r]) i g = l ++ [g r] := by
  induction l with
  | nil => simp [updateFirstSync, hr]
  | cons s l ih =>
    have hs : s.id ≠ i := h s (by simp)
    simp only [List.cons_append, updateFirstSync, hs, if_false, List.append_eq]
    rw [ih (fun t ht => h t (by simp [ht]))]

/-- The operation `update_sync_status` fails when no record has the id. -/
theorem update_sync_status_missing (db : Database) (now i : Nat) (st : SyncStatus)
    (h : ∀ s ∈ db.syncs, s.id ≠ i) :
    update_sync_status db now i st = .error (.notFound ("sync:" ++ toString i)) := by
  simp [update_sync_status, find?_id_none db.syncs i h]

end Repository

namespace SyncEngine

/-- Running `sync_file` on an existing file with a transport no-op action: the fresh
record is created `Syncing` and then updated to `Completed`; the call
succeeds. -/
theorem sync_file_noop_action (db : Database) (fresh now fid did : Nat)
    (a : SyncAction) (hfile : db.files.any (fun f => f.id = fid) = true)
    (hfresh : ∀ s ∈ db.syncs, s.id ≠ fresh)
    (ha : a = .upload ∨ a = .download ∨ a = .skip) :
    sync_file db fresh now fid did a =
      ({ db with syncs := db.syncs ++ [⟨fresh, did, fid, .completed, now⟩] }, .ok ()) := by
  have hcs : Repository.create_sync db fresh now ⟨did, fid, .syncing⟩ =
      .ok ({ db with syncs := db.syncs ++ [⟨fresh, did, fid, .syncing, now⟩] },
        ⟨fresh, did, fid, .syncing, now⟩) := by
    simp [Repository.create_sync, hfile]
  have hupd : Repository.update_sync_status
      { db with syncs := db.syncs ++ [⟨fresh, did, fid, .syncing, now⟩] } now fresh
      .completed =
      .ok ({ db with syncs := db.syncs ++ [⟨fresh, did, fid, .completed, now⟩] },
        ⟨fresh, did, fid, .completed, now⟩) := by
    simp only [Repository.update_sync_status]
    rw [Repository.find?_id_append db.syncs _ fresh hfresh rfl]
    rw [Repository.updateFirstSync_append db.syncs _ fresh _ hfresh rfl]
  rcases ha with rfl | rfl | rfl <;>
    simp only [sync_file, hcs, hupd]

/-- Running `sync_file` on an existing file with action `Delete`: the file record is
removed, the cascade also removes the just-created sync record, the
`Completed` update misses and is discarded, and the call succeeds. -/
theorem sync_file_delete_action (db : Database) (fresh now fid did : Nat)
    (hfile : db.files.any (fun f => f.id = fid) = true)
    (hfresh : ∀ s ∈ db.syncs, s.id ≠ fresh) :
    sync_file db fresh now fid did .delete =
      ({ files := db.files.eraseP (fun f => f.id = fid),
         syncs := db.syncs.filter (fun s => s.file_id ≠ fid),
         devices := db.devices }, .ok ()) := by
  have hcs : Repository.create_sync db fresh now ⟨did, fid, .syncing⟩ =
      .ok ({ db with syncs := db.syncs ++ [⟨fresh, did, fid, .syncing, now⟩] },
        ⟨fresh, did, fid, .syncing, now⟩) := by
    simp [Repository.create_sync, hfile]
  have hdel : Repository.delete_file
      { db with syncs := db.syncs ++ [⟨fresh, did, fid, .syncing, now⟩] } fid =
      .ok { files := db.files.eraseP (fun f => f.id = fid),
            syncs := db.syncs.filter (fun s => s.file_id ≠ fid),
            devices := db.devices } := by
    simp [Repository.delete_file, hfile, List.filter_append]
  have hupd : Repository.update_sync_status
      { files := db.files.eraseP (fun f => f.id = fid),
        syncs := db.syncs.filter (fun s => s.file_id ≠ fid),
        devices := db.devices } now fresh .completed =
      .error (.notFound ("sync:" ++ toString fresh)) := by
    refine Repository.update_sync_status_missing _ now fresh .completed ?_
    intro s hs
    exact hfresh s (List.mem_of_mem_filter hs)
  simp only [sync_file, hcs, hdel, hupd]

/-- Running `sync_file` on a missing file: record creation fails, the action result is
computed anyway, and `sync_record?` propagates the creation error. -/
theorem sync_file_missing_file (db : Database) (fresh now fid did : Nat)
    (a : SyncAction) (hfile : db.files.any (fun f => f.id = fid) = false) :
    sync_file db fresh now fid did a =
      (db, .error (.notFound ("file:" ++ toString fid))) := by
  have hcs : Repository.create_sync db fresh now ⟨did, fid, .syncing⟩ =
      .error (.notFound ("file:" ++ toString fid)) := by
    simp [Repository.create_sync, hfile]
  have hdel : Repository.delete_file db fid =
      .error (.notFound ("file:" ++ toString fid)) := by
    simp [Repository.delete_file, hfile]
  cases a <;> simp only [sync_file, hcs, hdel]

end SyncEngine

/-! ## Lemmas about reachable histories -/

theorem create_file_applied_syncs (db : Database) (fresh now : Nat) (nf : NewFileRecord) :
    (match Repository.create_file db fresh now nf with
     | .ok (d, _) => d
     | .error _ => db).syncs = db.syncs := by
  unfold Repository.create_file
  by_cases h : db.files.any (fun f => f.path = nf.path) <;> simp [h]

theorem update_file_applied_syncs (db : Database) (now id : Nat) (hash : Option String)
    (size : Nat) :
    (match Repository.update_file db now id hash size with
     | .ok (d, _) => d
     | .error _ => db).syncs = db.syncs := by
  unfold Repository.update_file
  cases db.files.find? (fun f => f.id = id) <;> simp

theorem create_device_applied_syncs (db : Database) (fresh now : Nat)
    (nd : NewDeviceRecord) :
    (match Repository.create_device db fresh now nd with
     | .ok (d, _) => d
     | .error _ => db).syncs = db.syncs := by
  simp [Repository.create_device]

theorem heartbeat_applied_syncs (db : Database) (now id : Nat) :
    (match Repository.update_device_last_seen db now id with
     | .ok (d, _) => d
     | .error _ => db).syncs = db.syncs := by
  unfold Repository.update_device_last_seen
  cases db.devices.find? (fun d => d.id = id) <;> simp

theorem delete_file_applied_syncs (db : Database) (id : Nat) :
    (match Repository.delete_file db id with
     | .ok d => d
     | .error _ => db).syncs = db.syncs ∨
    (match Repository.delete_file db id with
     | .ok d => d
     | .error _ => db).syncs = db.syncs.filter (fun s => s.file_id ≠ id) := by
  unfold Repository.delete_file
  by_cases h : db.files.any (fun f => f.id = id)
  · right; simp [h]
  · left; simp [h]

/-- The three possible sync-table outcomes of one `sync_file` call whose fresh
id is genuinely fresh. -/
theorem sync_file_syncs_shape (db : Database) (fresh now fid did : Nat) (a : SyncAction)
    (hfresh : ∀ s ∈ db.syncs, s.id ≠ fresh) :
    (SyncEngine.sync_file db fresh now fid did a).1.syncs = db.syncs ∨
    (SyncEngine.sync_file db fresh now fid did a).1.syncs =
      db.syncs ++ [⟨fresh, did, fid, .completed, now⟩] ∨
    (SyncEngine.sync_file db fresh now fid did a).1.syncs =
      db.syncs.filter (fun s => s.file_id ≠ fid) := by
  by_cases hfile : db.files.any (fun f => f.id = fid) = true
  · cases a with
    | upload =>
      right; left
      rw [SyncEngine.sync_file_noop_action db fresh now fid did _ hfile hfresh (by left; rfl)]
    | download =>
      right; left
      rw [SyncEngine.sync_file_noop_action db fresh now fid did _ hfile hfresh
        (by right; left; rfl)]
    | delete =>
      right; right
      rw [SyncEngine.sync_file_delete_action db fresh now fid did hfile hfresh]
    | skip =>
      right; left
      rw [SyncEngine.sync_file_noop_action db fresh now fid did _ hfile hfresh
        (by right; right; rfl)]
  · left
    have hfile' : db.files.any (fun f => f.id = fid) = false := by
      revert hfile
      cases db.files.any (fun f => f.id = fid) <;> simp
    rw [SyncEngine.sync_file_missing_file db fresh now fid did a hfile']

theorem nodup_ids_append_fresh (l : List SyncRecord) (r : SyncRecord) (n : Nat)
    (hb : ∀ t ∈ l, t.id < n) (hr : r.id = n)
    (hn : (l.map (fun t => t.id)).Nodup) :
    ((l ++ [r]).map (fun t => t.id)).Nodup := by
  rw [List.map_append]
  refine List.Nodup.append hn (by simp) ?_
  intro a ha ha'
  obtain ⟨t, ht, rfl⟩ := List.mem_map.mp ha
  simp only [List.map_cons, List.map_nil, List.mem_singleton] at ha'
  have h1 : t.id < n := hb t ht
  rw [ha', hr] at h1
  exact absurd h1 (lt_irrefl n)

theorem nodup_ids_filter (l : List SyncRecord) (p : SyncRecord → Bool)
    (hn : (l.map (fun t => t.id)).Nodup) :
    ((l.filter p).map (fun t => t.id)).Nodup :=
  ((List.filter_sublist l).map (fun t => t.id)).nodup hn

theorem Sys_db_mk (db : Database) (n : Nat) : (Sys.mk db n).db = db := rfl

theorem Sys_next_mk (db : Database) (n : Nat) : (Sys.mk db n).next = n := rfl

/-- Every step preserves the id discipline. -/
theorem step_inv {s s' : Sys} (h : Step s s') (hI : Inv s) : Inv s' := by
  obtain ⟨hbound, hnodup⟩ := hI
  cases h with
  | create_file now nf =>
    refine ⟨?_, ?_⟩
    · intro r hr
      rw [Sys_db_mk, create_file_applied_syncs] at hr
      rw [Sys_next_mk]
      exact Nat.lt_succ_of_lt (hbound r hr)
    · rw [Sys_db_mk, create_file_applied_syncs]
      exact hnodup
  | update_file now id hash size =>
    refine ⟨?_, ?_⟩
    · intro r hr
      rw [Sys_db_mk, update_file_applied_syncs] at hr
      rw [Sys_next_mk]
      exact hbound r hr
    · rw [Sys_db_mk, update_file_applied_syncs]
      exact hnodup
  | delete_file id =>
    rcases delete_file_applied_syncs s.db id with hs | hs
    · refine ⟨?_, ?_⟩
      · intro r hr
        rw [Sys_db_mk, hs] at hr
        rw [Sys_next_mk]
        exact hbound r hr
      · rw [Sys_db_mk, hs]
        exact hnodup
    · refine ⟨?_, ?_⟩
      · intro r hr
        rw [Sys_db_mk, hs] at hr
        rw [Sys_next_mk]
        exact hbound r (List.mem_of_mem_filter hr)
      · rw [Sys_db_mk, hs]
        exact nodup_ids_filter _ _ hnodup
  | sync_file now fid did a =>
    have hfresh : ∀ t ∈ s.db.syncs, t.id ≠ s.next :=
      fun t ht => Nat.ne_of_lt (hbound t ht)
    rcases sync_file_syncs_shape s.db s.next now fid did a hfresh with hs | hs | hs
    · refine ⟨?_, ?_⟩
      · intro r hr
        rw [Sys_db_mk, hs] at hr
        rw [Sys_next_mk]
        exact Nat.lt_succ_of_lt (hbound r hr)
      · rw [Sys_db_mk, hs]
        exact hnodup
    · refine ⟨?_, ?_⟩
      · intro r hr
        rw [Sys_db_mk, hs] at hr
        rw [Sys_next_mk]
        rcases List.mem_append.mp hr with hold | hnew
        · exact Nat.lt_succ_of_lt (hbound r hold)
        · simp only [List.mem_singleton] at hnew
          rw [hnew]
          exact Nat.lt_succ_self _
      · rw [Sys_db_mk, hs]
        exact nodup_ids_append_fresh _ _ _ hbound rfl hnodup
    · refine ⟨?_, ?_⟩
      · intro r hr
        rw [Sys_db_mk, hs] at hr
        rw [Sys_next_mk]
        exact Nat.lt_succ_of_lt (hbound r (List.mem_of_mem_filter hr))
      · rw [Sys_db_mk, hs]
        exact nodup_ids_filter _ _ hnodup
  | create_device now nd =>
    refine ⟨?_, ?_⟩
    · intro r hr
      rw [Sys_db_mk, create_device_applied_syncs] at hr
      rw [Sys_next_mk]
      exact Nat.lt_succ_of_lt (hbound r hr)
    · rw [Sys_db_mk, create_device_applied_syncs]
      exact hnodup
  | heartbeat now id =>
    refine ⟨?_, ?_⟩
    · intro r hr
      rw [Sys_db_mk, heartbeat_applied_syncs] at hr
      rw [Sys_next_mk]
      exact hbound r hr
    · rw [Sys_db_mk, heartbeat_applied_syncs]
      exact hnodup

theorem step_next_le {s s' : Sys} (h : Step s s') : s.next ≤ s'.next := by
  cases h <;> first
    | exact Nat.le_succ _
    | exact Nat.le_refl _

/-- No step ever changes the status found at an id that predates the step. -/
theorem step_freeze {s s' : Sys} (h : Step s s') (hI : Inv s) (i : Nat)
    (hi : i < s.next) (v : SyncStatus)
    (hP : ∀ r ∈ s.db.syncs, r.id = i → r.sync_status = v) :
    ∀ r ∈ s'.db.syncs, r.id = i → r.sync_status = v := by
  obtain ⟨hbound, _⟩ := hI
  cases h with
  | create_file now nf =>
    intro r hr
    rw [Sys_db_mk, create_file_applied_syncs] at hr
    exact hP r hr
  | update_file now id hash size =>
    intro r hr
    rw [Sys_db_mk, update_file_applied_syncs] at hr
    exact hP r hr
  | delete_file id =>
    intro r hr
    rw [Sys_db_mk] at hr
    rcases delete_file_applied_syncs s.db id with hs | hs <;> rw [hs] at hr
    · exact hP r hr
    · exact hP r (List.mem_of_mem_filter hr)
  | sync_file now fid did a =>
    have hfresh : ∀ t ∈ s.db.syncs, t.id ≠ s.next :=
      fun t ht => Nat.ne_of_lt (hbound t ht)
    intro r hr hid
    rw [Sys_db_mk] at hr
    rcases sync_file_syncs_shape s.db s.next now fid did a hfresh with hs | hs | hs <;>
      rw [hs] at hr
    · exact hP r hr hid
    · rcases List.mem_append.mp hr with hold | hnew
      · exact hP r hold hid
      · simp only [List.mem_singleton] at hnew
        rw [hnew] at hid
        simp only [SyncRecord.mk] at hid
        omega
    · exact hP r (List.mem_of_mem_filter hr) hid
  | create_device now nd =>
    intro r hr
    rw [Sys_db_mk, create_device_applied_syncs] at hr
    exact hP r hr
  | heartbeat now id =>
    intro r hr
    rw [Sys_db_mk, heartbeat_applied_syncs] at hr
    exact hP r hr

/-- The freeze property carries over whole histories. -/
theorem trace_freeze {s s' : Sys} (h : Relation.ReflTransGen Step s s') (hI : Inv s)
    (i : Nat) (v : SyncStatus) (hi : i < s.next)
    (hP : ∀ r ∈ s.db.syncs, r.id = i → r.sync_status = v) :
    Inv s' ∧ i < s'.next ∧ (∀ r ∈ s'.db.syncs, r.id = i → r.sync_status = v) := by
  induction h with
  | refl => exact ⟨hI, hi, hP⟩
  | tail hab hbc ih =>
    obtain ⟨h1, h2, h3⟩ := ih
    exact ⟨step_inv hbc h1, Nat.lt_of_lt_of_le h2 (step_next_le hbc),
      step_freeze hbc h1 i h2 v h3⟩

/-! ## Claim theorems -/

/-- Claim C1: for every byte sequence `b`, after `store_content(b)` returns a
hash, `retrieve_file` of that hash returns exactly `b`.  The hypothesis states
that whatever may already occupy `b`'s content address is `b` itself — the
content-addressing assumption that distinct stored content has a distinct
digest at this address (trivially true of an empty store). -/
theorem C1_store_retrieve_roundtrip (M : HashModel) (fs : Fs) (b : List Nat)
    (hclean : ∀ v, fs (objLoc M b) = some v → v = b) :
    ∃ fs', StorageService.store_content M fs b = some (M.digest b, b.length, fs') ∧
      StorageService.retrieve_file fs' (M.digest b) = some (.ok b) := by
  obtain ⟨fs', h1, h2, _, _, _⟩ := StorageService.store_content_stores M fs b hclean
  exact ⟨fs', h1, StorageService.retrieve_file_objLoc M fs' b h2⟩

/-- Witness for C1: concrete model, empty store, bytes `[1, 2]`. -/
theorem C1_witness :
    ∃ fs', StorageService.store_content sampleModel fsEmpty [1, 2] =
        some (sampleModel.digest [1, 2], 2, fs') ∧
      StorageService.retrieve_file fs' (sampleModel.digest [1, 2]) =
        some (.ok [1, 2]) :=
  C1_store_retrieve_roundtrip sampleModel fsEmpty [1, 2]
    (fun v hv => by simp [fsEmpty] at hv)

/-- Claim C7: `store_content` is idempotent — calling it twice returns the
same hash and size both times, the second call does not change the store at
all, and at most the single content address is written (the object lives at
exactly one location and every other location is untouched). -/
theorem C7_store_content_idempotent (M : HashModel) (fs : Fs) (b : List Nat) :
    ∃ h n fs', StorageService.store_content M fs b = some (h, n, fs') ∧
      StorageService.store_content M fs' b = some (h, n, fs') ∧
      (fs' (objLoc M b)).isSome ∧
      (∀ p, p ≠ objLoc M b → fs' p = fs p) := by
  obtain ⟨fs', h1, hsome, huntouched, _, _⟩ := StorageService.store_content_spec M fs b
  refine ⟨M.digest b, b.length, fs', h1, ?_, hsome, huntouched⟩
  unfold StorageService.store_content
  rw [StorageService.hash_to_path_digest]
  obtain ⟨v, hv⟩ := Option.isSome_iff_exists.mp hsome
  simp [hv]

/-- Claim C5 (evaluation at the failing input): a hash shorter than two
characters reaches `split_at(2)` inside `hash_to_path` and the call aborts
(modelled as `none`) instead of returning a typed failure, for
`retrieve_file`, `file_exists` and `delete_file` alike. -/
theorem C5_short_hash_panics (fs : Fs) :
    StorageService.hash_to_path ['a'] = none ∧
    StorageService.retrieve_file fs ['a'] = none ∧
    StorageService.file_exists fs ['a'] = none ∧
    StorageService.delete_file fs ['a'] = none := by
  refine ⟨rfl, ?_, ?_, ?_⟩ <;>
    simp [StorageService.retrieve_file, StorageService.file_exists,
      StorageService.delete_file, StorageService.hash_to_path]

/-- Claim C9: when the persisted metadata document exists but fails to parse,
`Repository::new` succeeds with an entirely empty store; a missing document
also yields the empty store. -/
theorem C9_corrupt_metadata_empty_store (parse : String → Option Database)
    (content : String) (hfail : parse content = none) :
    Repository.new parse (some content) = .ok ⟨[], [], []⟩ ∧
    Repository.new parse none = .ok ⟨[], [], []⟩ := by
  constructor
  · simp [Repository.new, hfail, Database.default]
  · simp [Repository.new, Database.default]

/-- Witness for C9: a parser that rejects everything, on some document text. -/
theorem C9_witness :
    Repository.new (fun _ => none) (some "not json") = .ok ⟨[], [], []⟩ ∧
    Repository.new (fun _ => none) none = .ok ⟨[], [], []⟩ :=
  C9_corrupt_metadata_empty_store (fun _ => none) "not json" rfl

/-- Claim C3: `create_sync_plan` emits exactly one plan item per local entry,
in order: `Upload` when the path has no remote counterpart, `Skip` when the
hashes are equal, otherwise `Download` exactly when the remote version is
strictly greater and `Upload` otherwise; and since every item comes from a
local entry, no item (in particular no `Delete`) is emitted for paths present
only remotely. -/
theorem C3_plan_shape (remote locals : List FileRecord) :
    SyncEngine.create_sync_plan remote locals =
      locals.map (fun lf => ⟨lf.id, lf.path, spec_action remote lf⟩) ∧
    (SyncEngine.create_sync_plan remote locals).length = locals.length ∧
    (∀ item ∈ SyncEngine.create_sync_plan remote locals,
      item.action ≠ .delete ∧ ∃ lf ∈ locals, item.file_id = lf.id ∧ item.path = lf.path) := by
  refine ⟨create_sync_plan_eq_map remote locals, ?_, ?_⟩
  · rw [create_sync_plan_eq_map remote locals, List.length_map]
  · intro item hitem
    rw [create_sync_plan_eq_map remote locals] at hitem
    obtain ⟨lf, hlf, rfl⟩ := List.mem_map.mp hitem
    refine ⟨?_, lf, hlf, rfl, rfl⟩
    show spec_action remote lf ≠ .delete
    unfold spec_action
    cases remote.find? (fun f => f.path = lf.path) with
    | none => simp
    | some r =>
      by_cases hh : r.hash = lf.hash
      · simp [hh]
      · by_cases hv : lf.version < r.version <;> simp [hh, hv]

/-- Witness for C3: a one-entry snapshot with no remote counterpart plans a
single `Upload`, which is not a `Delete`. -/
theorem C3_witness :
    (⟨1, "a", SyncAction.upload⟩ : SyncPlan).action ≠ .delete :=
  ((C3_plan_shape [] [⟨1, "a", none, 0, 1, 0, 0⟩]).2.2
    ⟨1, "a", .upload⟩ (by simp [SyncEngine.create_sync_plan, spec_action])).1

/-- Claim C10: when a local record's path exists remotely and both the local
and the remote `hash` fields are `None`, the planner compares the two `Option`
values as equal and emits `Skip` for that path. -/
theorem C10_absent_hashes_skip (remote locals : List FileRecord) (lf r : FileRecord)
    (hmem : lf ∈ locals)
    (hfind : remote.find? (fun f => f.path = lf.path) = some r)
    (hl : lf.hash = none) (hr : r.hash = none) :
    (⟨lf.id, lf.path, .skip⟩ : SyncPlan) ∈ SyncEngine.create_sync_plan remote locals := by
  rw [create_sync_plan_eq_map]
  refine List.mem_map.mpr ⟨lf, hmem, ?_⟩
  simp [spec_action, hfind, hl, hr]

/-- Witness for C10: both hash fields absent at the same path yields `Skip`. -/
theorem C10_witness :
    (⟨1, "a.txt", .skip⟩ : SyncPlan) ∈
      SyncEngine.create_sync_plan [⟨7, "a.txt", none, 0, 3, 0, 0⟩]
        [⟨1, "a.txt", none, 0, 1, 0, 0⟩] :=
  C10_absent_hashes_skip [⟨7, "a.txt", none, 0, 3, 0, 0⟩] [⟨1, "a.txt", none, 0, 1, 0, 0⟩]
    ⟨1, "a.txt", none, 0, 1, 0, 0⟩ ⟨7, "a.txt", none, 0, 3, 0, 0⟩
    (by simp) (by rfl) rfl rfl

/-- Claim C2: above the chunk threshold, `store_chunked` stores every block,
persists a manifest listing the block hashes in order, and returns the
whole-file hash computed over the entire unchunked content (`digest content`,
independent of block boundaries); `retrieve_chunked` of that hash then
reproduces the content byte-for-byte by concatenating the chunks in manifest
order (and indeed the blocks concatenate back to the content).  At or below
the threshold, `store_chunked` delegates to `store_file` and returns the
single-element chunk list holding the whole-file hash.  The two collision
hypotheses say that nothing alien occupies a block's address in the initial
store and that distinct blocks have distinct digests. -/
theorem C2_store_chunked_roundtrip (M : HashModel) (k : Nat) (fs : Fs)
    (content : List Nat) (hk : 0 < k) :
    (k < content.length →
      (∀ c ∈ StorageService.chunks_of k content, ∀ v, fs (objLoc M c) = some v → v = c) →
      (∀ c ∈ StorageService.chunks_of k content,
        ∀ c' ∈ StorageService.chunks_of k content, M.digest c = M.digest c' → c = c') →
      ∃ fs', StorageService.store_chunked M k fs content =
          some (M.digest content, content.length,
            (StorageService.chunks_of k content).map M.digest, fs') ∧
        StorageService.retrieve_chunked fs' (M.digest content) = some (.ok content) ∧
        fs' (manifestLoc (M.digest content)) =
          some (encode_manifest ⟨M.digest content, content.length,
            (StorageService.chunks_of k content).map M.digest⟩) ∧
        (StorageService.chunks_of k content).flatten = content) ∧
    (content.length ≤ k →
      ∃ fs', StorageService.store_file M k fs content =
          some (M.digest content, content.length, fs') ∧
        StorageService.store_chunked M k fs content =
          some (M.digest content, content.length, [M.digest content], fs')) := by
  have hflat : (StorageService.chunks_of k content).flatten = content :=
    StorageService.chunks_of_flatten k hk content
  have hch : StorageService.compute_hash M k content = M.digest content := by
    rw [StorageService.compute_hash, hflat]
  constructor
  · intro hbig hclean hpair
    obtain ⟨fs1, hloop, hstored, _⟩ :=
      StorageService.store_chunks_loop_spec M (StorageService.chunks_of k content)
        fs hclean hpair
    have hnotle : ¬ content.length ≤ k := not_le.mpr hbig
    set m : ChunkManifest :=
      ⟨M.digest content, content.length, (StorageService.chunks_of k content).map M.digest⟩
    set fs2 : Fs := fsWrite fs1 (manifestLoc (M.digest content)) (encode_manifest m)
    have hmem : fs2 (manifestLoc (M.digest content)) = some (encode_manifest m) := by
      simp [fs2, fsWrite]
    have hchunk2 : ∀ c ∈ StorageService.chunks_of k content,
        fs2 (objLoc M c) = some c := by
      intro c hc
      have hne : objLoc M c ≠ manifestLoc (M.digest content) :=
        StorageService.objLoc_ne_manifestLoc M c (M.digest content)
      calc fs2 (objLoc M c) = fs1 (objLoc M c) := by simp [fs2, fsWrite, hne]
        _ = some c := hstored c hc
    have hretr : StorageService.retrieve_chunks_loop fs2
        ((StorageService.chunks_of k content).map M.digest) = some (.ok content) := by
      rw [StorageService.retrieve_chunks_loop_spec M fs2
        (StorageService.chunks_of k content)
        (fun c hc => StorageService.retrieve_file_objLoc M fs2 c (hchunk2 c hc)), hflat]
    refine ⟨fs2, ?_, ?_, hmem, hflat⟩
    · unfold StorageService.store_chunked
      rw [if_neg hnotle, hloop]
      simp only [hflat, StorageService.hash_to_path_manifestTag]
    · unfold StorageService.retrieve_chunked
      rw [StorageService.hash_to_path_manifestTag]
      simp only [hmem, decode_encode_manifest]
      exact hretr
  · intro hle
    have hsf : StorageService.store_file M k fs content =
        StorageService.store_content M fs content := by
      unfold StorageService.store_file StorageService.store_content
      rw [hch]
    obtain ⟨fs', h1, _, _, _, _⟩ := StorageService.store_content_spec M fs content
    refine ⟨fs', ?_, ?_⟩
    · rw [hsf, h1]
    · unfold StorageService.store_chunked
      rw [if_pos hle, hsf, h1]

/-- Witness for C2: concrete model, chunk size 2, the three-byte content
`[0, 1, 2]` split into blocks `[0, 1]` and `[2]`. -/
theorem C2_witness :
    ∃ fs', StorageService.store_chunked sampleModel 2 fsEmpty [0, 1, 2] =
        some (sampleModel.digest [0, 1, 2], 3,
          (StorageService.chunks_of 2 [0, 1, 2]).map sampleModel.digest, fs') ∧
      StorageService.retrieve_chunked fs' (sampleModel.digest [0, 1, 2]) =
        some (.ok [0, 1, 2]) ∧
      fs' (manifestLoc (sampleModel.digest [0, 1, 2])) =
        some (encode_manifest ⟨sampleModel.digest [0, 1, 2], 3,
          (StorageService.chunks_of 2 [0, 1, 2]).map sampleModel.digest⟩) ∧
      (StorageService.chunks_of 2 [0, 1, 2]).flatten = [0, 1, 2] :=
  (C2_store_chunked_roundtrip sampleModel 2 fsEmpty [0, 1, 2] (by decide)).1
    (by decide)
    (fun c _ v hv => by simp [fsEmpty] at hv)
    (by decide)

/-- Claim C6, counterexample: a raw rename notification that preserves the
earlier path (a `Modify(Name)` event carrying both paths) is translated to
`Modified(old path)`, not to `Renamed(from, to)`. -/
theorem C6_counterexample :
    FileWatcher.convert_event renameNotification = some (.modified "old.txt") ∧
    FileWatcher.convert_event renameNotification ≠ some (.renamed "old.txt" "new.txt") := by
  constructor
  · rfl
  · intro h
    simp [FileWatcher.convert_event, renameNotification] at h

/-- Claim C6 (amended): `convert_event` maps `Create`/`Modify`/`Remove`
notifications to `Created`/`Modified`/`Deleted` on the first path, drops
events with no path and events of kind `Any`/`Access`/`Other`, and never
produces `Renamed` — rename notifications arrive as `Modify` kinds and become
`Modified`. -/
theorem C6_convert_event_classification :
    (∀ (k : CreateKind) (p : String) (rest : List String),
      FileWatcher.convert_event ⟨.create k, p :: rest⟩ = some (.created p)) ∧
    (∀ (k : ModifyKind) (p : String) (rest : List String),
      FileWatcher.convert_event ⟨.modify k, p :: rest⟩ = some (.modified p)) ∧
    (∀ (k : RemoveKind) (p : String) (rest : List String),
      FileWatcher.convert_event ⟨.remove k, p :: rest⟩ = some (.deleted p)) ∧
    (∀ e : NotifyEvent, e.paths = [] → FileWatcher.convert_event e = none) ∧
    (∀ (p : String) (rest : List String),
      FileWatcher.convert_event ⟨.any, p :: rest⟩ = none ∧
      FileWatcher.convert_event ⟨.other, p :: rest⟩ = none) ∧
    (∀ (k : AccessKind) (p : String) (rest : List String),
      FileWatcher.convert_event ⟨.access k, p :: rest⟩ = none) ∧
    (∀ (e : NotifyEvent) (src dst : String),
      FileWatcher.convert_event e ≠ some (.renamed src dst)) := by
  refine ⟨fun k p rest => rfl, fun k p rest => rfl, fun k p rest => rfl, ?_,
    fun p rest => ⟨rfl, rfl⟩, fun k p rest => rfl, ?_⟩
  · intro e he
    simp [FileWatcher.convert_event, he]
  · intro e src dst h
    obtain ⟨kind, paths⟩ := e
    cases paths with
    | nil => simp [FileWatcher.convert_event] at h
    | cons p rest => cases kind <;> simp [FileWatcher.convert_event] at h

/-- Witness for C6: a creation is translated, and a pathless notification is
dropped. -/
theorem C6_witness :
    FileWatcher.convert_event ⟨.create .file, ["a"]⟩ = some (.created "a") ∧
    FileWatcher.convert_event ⟨.modify .name, []⟩ = none :=
  ⟨C6_convert_event_classification.1 .file "a" [],
   C6_convert_event_classification.2.2.2.1 ⟨.modify .name, []⟩ rfl⟩

/-- Claim C4, counterexample: `sync_file` with action `Delete` on an existing
file succeeds, yet afterwards the sync table is empty — the cascade delete
removed the record created by this very call, so no `SyncRecord` ever
transitions to `Completed`. -/
theorem C4_counterexample :
    (SyncEngine.sync_file c4db 10 0 1 5 .delete).2 = .ok () ∧
    (SyncEngine.sync_file c4db 10 0 1 5 .delete).1.syncs = [] := by
  constructor <;> rfl

/-- Claim C4 (amended): `sync_file` creates a `Syncing` record; for
`Upload`/`Download`/`Skip` (transport no-ops) the record then transitions to
`Completed` and the call returns `Ok`; for `Delete` the `FileRecord` is
removed and the cascade also removes the just-created `SyncRecord`, so the
`Completed` update misses (and is discarded) while the call still returns
`Ok`; when the action fails (the file does not exist), `sync_file` returns
the `NotFound` error to the caller. -/
theorem C4_sync_file_amended (db : Database) (fresh now fid did : Nat)
    (hfile : db.files.any (fun f => f.id = fid) = true)
    (hfresh : ∀ s ∈ db.syncs, s.id ≠ fresh) :
    (∀ a : SyncAction, a = .upload ∨ a = .download ∨ a = .skip →
      SyncEngine.sync_file db fresh now fid did a =
        ({ db with syncs := db.syncs ++ [⟨fresh, did, fid, .completed, now⟩] }, .ok ())) ∧
    SyncEngine.sync_file db fresh now fid did .delete =
      ({ files := db.files.eraseP (fun f => f.id = fid),
         syncs := db.syncs.filter (fun s => s.file_id ≠ fid),
         devices := db.devices }, .ok ()) ∧
    (∀ (a : SyncAction) (db2 : Database),
      db2.files.any (fun f => f.id = fid) = false →
      SyncEngine.sync_file db2 fresh now fid did a =
        (db2, .error (.notFound ("file:" ++ toString fid)))) :=
  ⟨fun a ha => SyncEngine.sync_file_noop_action db fresh now fid did a hfile hfresh ha,
   SyncEngine.sync_file_delete_action db fresh now fid did hfile hfresh,
   fun a db2 h => SyncEngine.sync_file_missing_file db2 fresh now fid did a h⟩

/-- Witness for C4: on a one-file database, `Skip` completes the fresh record
and `Delete` wipes the sync table while succeeding. -/
theorem C4_witness :
    SyncEngine.sync_file c4db 10 0 1 5 .skip =
      ({ c4db with syncs := c4db.syncs ++ [⟨10, 5, 1, .completed, 0⟩] }, .ok ()) ∧
    SyncEngine.sync_file c4db 10 0 1 5 .delete =
      ({ files := c4db.files.eraseP (fun f => f.id = 1),
         syncs := c4db.syncs.filter (fun s => s.file_id ≠ 1),
         devices := c4db.devices }, .ok ()) :=
  ⟨(C4_sync_file_amended c4db 10 0 1 5 (by rfl)
      (fun s hs => by simp [c4db] at hs)).1 .skip (by right; right; rfl),
   (C4_sync_file_amended c4db 10 0 1 5 (by rfl)
      (fun s hs => by simp [c4db] at hs)).2.1⟩

/-- Claim C8: along every reachable sequence of repository operations (the
operations the program actually performs; `update_sync_status` is only ever
called by `sync_file` on the record it just created), a `SyncRecord` whose
status is `Completed` or `Failed` is never changed again: any later record
with the same id has the same status.  A new sync attempt creates a new
record with a fresh id instead. -/
theorem C8_terminal_status (s s' : Sys) (h : Relation.ReflTransGen Step s s')
    (hI : Inv s) (r : SyncRecord) (hr : r ∈ s.db.syncs)
    (hterm : r.sync_status = .completed ∨ r.sync_status = .failed) :
    ∀ r' ∈ s'.db.syncs, r'.id = r.id → r'.sync_status = r.sync_status := by
  have hi : r.id < s.next := hI.1 r hr
  have hP : ∀ t ∈ s.db.syncs, t.id = r.id → t.sync_status = r.sync_status := by
    intro t ht hid
    have : t = r := List.inj_on_of_nodup_map hI.2 ht hr hid
    rw [this]
  exact (trace_freeze h hI r.id r.sync_status hi hP).2.2

/-- Witness for C8: a completed record survives a subsequent `sync_file` step
with its status intact. -/
theorem C8_witness :
    (⟨1, 2, 0, .completed, 0⟩ : SyncRecord).sync_status = .completed :=
  C8_terminal_status c8s0
    ⟨(SyncEngine.sync_file c8s0.db c8s0.next 7 0 2 .skip).1, c8s0.next + 1⟩
    (Relation.ReflTransGen.single (Step.sync_file c8s0 7 0 2 .skip))
    ⟨by decide, by decide⟩
    ⟨1, 2, 0, .completed, 0⟩ (by decide) (Or.inl rfl)
    ⟨1, 2, 0, .completed, 0⟩ (by decide) rfl

end RustCloud
